import Mathlib

/-!
Verification of the devel-dir-switcher core (`devel_dir_switcher.py`).

Paths are modelled as Lean `String`s.  All paths handed to `Directory` are
assumed to be absolute and already normalized, so `os.path.abspath` acts as
the identity on them.  The filesystem is modelled by the structure `FS`
below: `isDir` models `os.path.isdir` and `realpath` models
`os.path.realpath`.  Python `set`s of candidate paths are modelled as
duplicate-free lists built with `setAdd` (insertion preserving first
occurrence); the code only ever inspects membership, emptiness and
cardinality-one of these sets, none of which depend on iteration order.
-/

namespace DDS

/-- Python `s.startswith(p)` on strings, via the character lists. -/
def startsWith (s p : String) : Bool := p.data.isPrefixOf s.data

/-- Python `s.endswith(p)` on strings, via the character lists. -/
def endsWith (s p : String) : Bool := p.data.isSuffixOf s.data

/-- Python `str.replace` scanning loop on character lists, with an explicit
fuel argument so that the recursion is structural (every step consumes at
least one character of `s`, so any fuel of at least `s.length + 1`
computes the scan to completion). -/
def replaceAllAux (pat rep : List Char) : Nat → List Char → List Char
  | 0, s => s
  | fuel + 1, s =>
    match s with
    | [] => if pat.isEmpty then rep else []
    | c :: rest =>
      if pat.isEmpty then rep ++ c :: replaceAllAux pat rep fuel rest
      else if pat.isPrefixOf (c :: rest) then
        rep ++ replaceAllAux pat rep fuel ((c :: rest).drop pat.length)
      else c :: replaceAllAux pat rep fuel rest

/-- Python `str.replace` on character lists: every non-overlapping
occurrence of `pat` in `s` is replaced by `rep`, scanning left to right;
an empty pattern matches between every character (and at both ends),
exactly as in CPython. -/
def replaceAll (s pat rep : List Char) : List Char :=
  replaceAllAux pat rep (s.length + 1) s

/-- Python `s.replace(pat, rep)` lifted to `String`. -/
def pyReplace (s pat rep : String) : String := String.mk (replaceAll s.data pat.data rep.data)

/-- The helper `strip_end` from `devel_dir_switcher.py`: drop `suffix` from the end of
`text` when present, otherwise return `text` unchanged. -/
def strip_end (text suffix : String) : String :=
  if endsWith text suffix then String.mk (text.data.take (text.data.length - suffix.data.length))
  else text

/-- Python `name.rstrip("/")`. -/
def rstripSlash (s : String) : String :=
  String.mk ((s.data.reverse.dropWhile (· = '/')).reverse)

/-- Python `s.split("/")` on character lists (a list of groups separated
by `/`, keeping empty groups, as Python does). -/
def splitOnSlash : List Char → List (List Char)
  | [] => [[]]
  | c :: rest =>
    if c = '/' then [] :: splitOnSlash rest
    else
      match splitOnSlash rest with
      | [] => [[c]]
      | g :: gs => (c :: g) :: gs

/-- Python `relative_path.split("/")` followed by `filter(None, ...)`:
the non-empty `/`-separated segments. -/
def splitSegs (s : String) : List String :=
  ((splitOnSlash s.data).map String.mk).filter (fun t => t ≠ "")

/-- One step of `os.path.join`: append a single component. -/
def joinOne (a p : String) : String :=
  if startsWith p "/" then p
  else if a = "" ∨ endsWith a "/" then a ++ p
  else a ++ "/" ++ p

/-- Python `os.path.join(base, *parts)`. -/
def osJoin (base : String) (parts : List String) : String := parts.foldl joinOne base

/-- Python `os.path.basename`: everything after the last `/`. -/
def osBasename (p : String) : String :=
  String.mk ((p.data.reverse.takeWhile (· ≠ '/')).reverse)

/-- The filesystem as seen by the program: `isDir` models `os.path.isdir`
and `realpath` models `os.path.realpath`. -/
structure FS where
  isDir : String → Bool
  realpath : String → String

/-- Append a trailing separator when missing, as `Directory.__init__` and
the `real_path` property do. -/
def ensureSlash (p : String) : String := if endsWith p "/" then p else p ++ "/"

/-- The `Directory` class: the literal (absolute, separator-terminated)
path together with its memoized `os.path.realpath` form.  Laziness of the
`real_path` property is immaterial because `realpath` is modelled as a pure
function of the path. -/
structure Directory where
  path : String
  real_path : String
deriving DecidableEq, Repr

/-- The value `Directory(path)` for an absolute normalized `path` under filesystem
`fs` (so `os.path.abspath` is the identity), with the `real_path` property
already forced. -/
def mkDirectory (fs : FS) (p : String) : Directory :=
  { path := ensureSlash p, real_path := ensureSlash (fs.realpath (ensureSlash p)) }

/-- The method `Directory.is_subdirectory_of`: the 2×2 cross product of
literal/resolved `startswith` checks. -/
def Directory.is_subdirectory_of (self other : Directory) : Bool :=
  (startsWith self.path other.path || startsWith self.real_path other.path) ||
    (startsWith self.path other.real_path || startsWith self.real_path other.real_path)

/-- The method `Directory.try_replace_prefix`: try the four (self literal/resolved) ×
(prefix literal/resolved) combinations in `itertools.product` order and,
for the first combination where `src.startswith(dest)` holds, return
`src.replace(dest, replacement)` (which, being Python `str.replace`,
substitutes every non-overlapping occurrence of `dest`, not only the
leading one). -/
def try_replace_prefix (self pre : Directory) (replacement : String) : Option String :=
  if startsWith self.path pre.path then some (pyReplace self.path pre.path replacement)
  else if startsWith self.path pre.real_path then
    some (pyReplace self.path pre.real_path replacement)
  else if startsWith self.real_path pre.path then
    some (pyReplace self.real_path pre.path replacement)
  else if startsWith self.real_path pre.real_path then
    some (pyReplace self.real_path pre.real_path replacement)
  else none

/-- A filesystem in which nothing is a directory and every path is its own
`realpath` (no symlinks); used as a backdrop for concrete inputs. -/
def fsId : FS := { isDir := fun _ => false, realpath := fun p => p }

/-- Concrete `Directory("/a/b/a/c")` under `fsId`. -/
def dirRepeated : Directory := mkDirectory fsId "/a/b/a/c"

/-- Concrete `Directory("/a")` under `fsId`. -/
def dirSlashA : Directory := mkDirectory fsId "/a"

/-- A `DirMapping` as loaded by `DirMapping.__init__`: the source root, the
(possibly empty) ordered list of build roots, the suffix list (the
per-mapping `build-suffixes` or the config default, resolved at load time),
and the optional `basename` override. -/
structure DirMapping where
  source : Directory
  build_dirs : List Directory
  build_suffixes : List String
  basename : Option String
deriving DecidableEq, Repr

/-- The parts of the loaded configuration the resolver consults. -/
structure Config where
  directories : List DirMapping
  overrides : List DirMapping
  ignored_dirs : List String
deriving DecidableEq, Repr

/-- Python `set.add`: candidate sets, modelled as duplicate-free lists. -/
def setAdd (l : List String) (x : String) : List String :=
  if x ∈ l then l else l ++ [x]

/-- Python `a.union(b)` on candidate sets. -/
def setUnion (a b : List String) : List String := b.foldl setAdd a

/-- Python `os.getcwd()` wrapped by `safe_getcwd`: `none` models the
`FileNotFoundError` raised when the current working directory has been
deleted, in which case the function returns `"/"`. -/
def safe_getcwd (cwd : Option String) : String :=
  match cwd with
  | some p => p
  | none => "/"

/-- The reference `Directory` used by `get_build_dir` when no repository
name is given: `Directory(os.path.realpath(safe_getcwd()))`. -/
def buildReferenceDir (fs : FS) (cwd : Option String) : Directory :=
  mkDirectory fs (fs.realpath ( safe_getcwd cwd))

/-- The reference `Directory` used by `get_source_dir` when no repository
name is given: `Directory(safe_getcwd())`. -/
def sourceReferenceDir (fs : FS) (cwd : Option String) : Directory :=
  mkDirectory fs ( safe_getcwd cwd)

/-- The segment list used by `_get_build_dir_candidates`: the non-empty
`/`-separated segments of the relative path, with an empty relative path
replaced by the single synthetic segment `"/"`. -/
def buildParts (relative_path : String) : List String :=
  let parts := splitSegs relative_path
  if parts.isEmpty then ["/"] else parts

/-- The segment list `new_parts` of `_get_build_dir_candidates` for one
`(i, name)` pair: segment `i` alone is replaced by
`name.rstrip("/") + suffix`. -/
def modifiedSegs (parts : List String) (suffix : String) (ip : Nat × String) : List String :=
  parts.set ip.1 (rstripSlash ip.2 ++ suffix)

/-- The loop body of `_get_build_dir_candidates` for one `(i, name)` pair
under one suffix: append the suffix to segment `i` alone; if the joined
path is a directory add it to the exact-candidate set, otherwise if the
prefix up through segment `i` is a directory add that to the
root-candidate set. -/
def addSuffixCandidate (fs : FS) (bdpath : String) (parts : List String) (suffix : String)
    (acc : List String × List String) (ip : Nat × String) : List String × List String :=
  if fs.isDir (osJoin bdpath (modifiedSegs parts suffix ip)) then
    (setAdd acc.1 (osJoin bdpath (modifiedSegs parts suffix ip)), acc.2)
  else if fs.isDir (osJoin bdpath ((modifiedSegs parts suffix ip).take (ip.1 + 1))) then
    (acc.1, setAdd acc.2 (osJoin bdpath ((modifiedSegs parts suffix ip).take (ip.1 + 1))))
  else acc

/-- The method `DevelDirs._get_build_dir_candidates`: for every suffix (the configured
ones followed by the implicit empty suffix) and every segment index, test
the suffixed path under the build root; returns the pair
(exact candidates, root candidates). -/
def get_build_dir_candidates (fs : FS) (relative_path : String) (builddir : Directory)
    (suffixes : List String) : List String × List String :=
  (suffixes ++ [""]).foldl
    (fun acc suffix =>
      (buildParts relative_path).enum.foldl
        (addSuffixCandidate fs builddir.path (buildParts relative_path) suffix) acc)
    ([], [])

/-- The `relative_path` computed at the top of `_try_build_dir_mapping`:
the truthy `basename` override if present, otherwise the reference path
with the mapping's source root stripped. -/
def mappingRelativePath (m : DirMapping) (path : Directory) : Option String :=
  match m.basename with
  | some b => if b = "" then try_replace_prefix path m.source "" else some b
  | none => try_replace_prefix path m.source ""

/-- The candidate pair a mapping produces in `_try_build_dir_mapping`: the
union of the per-build-root candidate pairs over all of the mapping's
build roots. -/
def mappingCandidates (fs : FS) (m : DirMapping) (rel : String) : List String × List String :=
  m.build_dirs.foldl
    (fun acc bd =>
      let fr := get_build_dir_candidates fs rel bd m.build_suffixes
      (setUnion acc.1 fr.1, setUnion acc.2 fr.2))
    ([], [])

/-- How `_try_build_dir_mapping` terminates the run once a mapping applies
(each constructor is one `output_result`, prompt or `die` exit point). -/
inductive MappingOutcome
  | promptCandidates (choices : List String)
  | promptRootCandidates (choices : List String)
  | dieNoBuildDirConfigured
  | dieNotFound
deriving DecidableEq, Repr

/-- The method `DevelDirs._try_build_dir_mapping`: `none` models the early `return`
when the mapping's relative path cannot be computed (the caller's loop then
moves on to the next mapping); otherwise the mapping decides the whole
operation. -/
def try_build_dir_mapping (fs : FS) (m : DirMapping) (path : Directory) :
    Option MappingOutcome :=
  match mappingRelativePath m path with
  | none => none
  | some rel =>
    if m.build_dirs.isEmpty then some .dieNoBuildDirConfigured
    else if !(mappingCandidates fs m rel).1.isEmpty then
      some (.promptCandidates (mappingCandidates fs m rel).1)
    else if !(mappingCandidates fs m rel).2.isEmpty then
      some (.promptRootCandidates (mappingCandidates fs m rel).2)
    else some .dieNotFound

/-- One iteration of the mapping loops in `get_build_dir`: skip the mapping
when the reference path is not under its source root, otherwise run
`_try_build_dir_mapping`. -/
def buildMappingStep (fs : FS) (path : Directory) (m : DirMapping) : Option MappingOutcome :=
  if Directory.is_subdirectory_of path m.source then try_build_dir_mapping fs m path else none

/-- The `for` loops over overrides / generic mappings in `get_build_dir`:
the first mapping producing an outcome ends the run. -/
def buildLoop (fs : FS) (path : Directory) : List DirMapping → Option MappingOutcome
  | [] => none
  | m :: rest =>
    match buildMappingStep fs path m with
    | some o => some o
    | none => buildLoop fs path rest

/-- The possible endings of `get_build_dir` (after the reference path has
been determined). -/
inductive BuildResult
  | alreadyInBuildDir (d : Directory)
  | outcome (o : MappingOutcome)
  | fallback (p : String)
  | pyCrash
deriving DecidableEq, Repr

/-- The method `DevelDirs.get_build_dir` for a given reference path: the
already-in-build-dir check over the generic mappings, then the override
loop, then the generic-mapping loop, then the first-build-root fallback
(`pyCrash` models the `IndexError` the fallback raises when the
configuration has no generic mapping or the first one has no build root). -/
def get_build_dir (fs : FS) (cfg : Config) (path : Directory) : BuildResult :=
  if cfg.directories.any (fun m => m.build_dirs.any
      (fun b => Directory.is_subdirectory_of path b)) then
    .alreadyInBuildDir path
  else
    match buildLoop fs path cfg.overrides with
    | some o => .outcome o
    | none =>
      match buildLoop fs path cfg.directories with
      | some o => .outcome o
      | none =>
        match cfg.directories with
        | [] => .pyCrash
        | m :: _ =>
          match m.build_dirs with
          | [] => .pyCrash
          | b :: _ => .fallback b.path

/-- The inner suffix-stripping loop body of `_try_as_source_directory` for
one build root: segment `i` has a suffix stripped when it actually ends
with it, and the joined path under the source root is added when it is a
directory (note: no root-candidate fallback on this side). -/
def stripSuffixCandidates (fs : FS) (srcpath : String) (suffixes : List String)
    (parts : List String) (cands : List String) : List String :=
  parts.enum.foldl
    (fun cands ip =>
      (suffixes ++ [""]).foldl
        (fun cands suffix =>
          if endsWith (rstripSlash ip.2) suffix then
            if fs.isDir
                (osJoin srcpath (parts.set ip.1 ( strip_end (rstripSlash ip.2) suffix))) then
              setAdd cands
                (osJoin srcpath (parts.set ip.1 ( strip_end (rstripSlash ip.2) suffix)))
            else cands
          else cands)
        cands)
    cands

/-- The method `DevelDirs._try_as_source_directory`: for each build root of the
mapping whose prefix matches the reference path, add the unmodified
source-side path when it exists, and (when the mapping has suffixes) every
suffix-stripped variant that exists.  The function always returns the
accumulated set (the Python `Optional` return is never `None`). -/
def try_as_source_directory (fs : FS) (path : Directory) (m : DirMapping) : List String :=
  m.build_dirs.foldl
    (fun cands bd =>
      match try_replace_prefix path bd "" with
      | none => cands
      | some rel =>
        if m.build_suffixes.isEmpty then
          (if fs.isDir (m.source.path ++ rel) then setAdd cands (m.source.path ++ rel)
           else cands)
        else
          stripSuffixCandidates fs m.source.path m.build_suffixes (splitSegs rel)
            (if fs.isDir (m.source.path ++ rel) then setAdd cands (m.source.path ++ rel)
             else cands))
    []

/-- The possible endings of the current-directory branch of
`get_source_dir`. -/
inductive SourceResult
  | alreadyInSourceDir (d : Directory)
  | promptCandidates (choices : List String)
  | dieNotFound
  | fallback (d : Directory)
  | pyCrash
deriving DecidableEq, Repr

/-- The candidate set accumulated by the mapping loop of
`get_source_dir`: ONE pass over overrides followed by generic mappings,
with all the per-mapping candidate sets unioned together. -/
def sourceCandidates (fs : FS) (cfg : Config) (cwd : Directory) : List String :=
  (cfg.overrides ++ cfg.directories).foldl
    (fun acc m => setUnion acc ( try_as_source_directory fs cwd m)) []

/-- The method `DevelDirs.get_source_dir` for the current-directory case (the
repository-name case goes through `get_dir_for_repo` instead): the
already-in-source-dir check (excluding build roots nested under the source
root), then a single disambiguation over the union `sourceCandidates`;
`found_match` is true exactly when at least one mapping was iterated,
because `_try_as_source_directory` never returns `None`. -/
def get_source_dir (fs : FS) (cfg : Config) (cwd : Directory) : SourceResult :=
  if cfg.directories.any (fun m =>
      Directory.is_subdirectory_of cwd m.source &&
        !(m.build_dirs.any (fun b => Directory.is_subdirectory_of cwd b))) then
    .alreadyInSourceDir cwd
  else if !(cfg.overrides ++ cfg.directories).isEmpty then
    if !( sourceCandidates fs cfg cwd).isEmpty then
      .promptCandidates ( sourceCandidates fs cfg cwd)
    else .dieNotFound
  else
    match cfg.directories with
    | [] => .pyCrash
    | m :: _ => .fallback m.source

/-- The result of `prompt_from_choices`, with one constructor per exit
path: the assertion on an empty choice list, the no-interaction return on a
single choice, a successful selection from the displayed (sorted) list
after reading one input line, and the `die("Invalid choice: ...")` exit
taken on any parse failure or out-of-range number (there is no retry
loop). -/
inductive PromptResult
  | assertFail
  | immediate (d : String)
  | chosen (displayed : List String) (d : String)
  | invalidChoice
deriving DecidableEq, Repr

/-- An ASCII whitespace character, as stripped by Python `int()`. -/
def isSpaceChar (c : Char) : Bool :=
  c = ' ' || c = '\t' || c = '\n' || c = '\r' || c = '\x0b' || c = '\x0c'

/-- A non-empty all-digit character group read as a number. -/
def digitsToNat (ds : List Char) : Option Nat :=
  if ds ≠ [] ∧ ds.all (fun c => c.isDigit) then
    some (ds.foldl (fun n c => n * 10 + (c.toNat - 48)) 0)
  else none

/-- Python `int(line)` on an input line: surrounding whitespace is
stripped and an optional sign is allowed before the decimal digits
(digit-group underscores and non-ASCII digits are not modelled). -/
def parseIntLine (s : String) : Option Int :=
  match (((s.data.dropWhile isSpaceChar).reverse.dropWhile isSpaceChar).reverse :
      List Char) with
  | '-' :: ds => (digitsToNat ds).map (fun n => -(n : Int))
  | '+' :: ds => (digitsToNat ds).map (fun n => (n : Int))
  | ds => (digitsToNat ds).map (fun n => (n : Int))

/-- The sort applied by `prompt_from_choices` (`sorted(choices)`:
lexicographic on the path strings). -/
def sortedChoices (choices : List String) : List String :=
  choices.mergeSort (fun a b => decide (a ≤ b))

/-- The method `DevelDirs.prompt_from_choices`, with the single line read from the
interaction channel passed in as `inputLine` (it is consulted only when
there are at least two choices). -/
def prompt_from_choices (choices : List String) (inputLine : String) : PromptResult :=
  match choices with
  | [] => .assertFail
  | [c] => .immediate c
  | _ :: _ :: _ =>
    match parseIntLine inputLine with
    | none => .invalidChoice
    | some n =>
      if n < 1 ∨ n > (choices.length : Int) then .invalidChoice
      else .chosen ( sortedChoices choices) (( sortedChoices choices).getD (n.toNat - 1) "")

/-- Python `dict` lookup on the cache, modelled as an ordered association
list (JSON objects preserve insertion order). -/
def dictGet? : List (String × List String) → String → Option (List String)
  | [], _ => none
  | (k, v) :: rest, key => if k = key then some v else dictGet? rest key

/-- Python `dict` assignment to an existing key (position preserved) or a
fresh key (appended at the end). -/
def dictSet : List (String × List String) → String → List String → List (String × List String)
  | [], k, v => [(k, v)]
  | (k', v') :: rest, k, v => if k' = k then (k, v) :: rest else (k', v') :: dictSet rest k v

/-- The result of `DevelDirs.get_dir_for_repo`: missing name (non-fatal,
the function returns `None` and the caller falls back), empty path list
(fatal `die("Corrupted cache file: ...")`), or hand the path list to
`prompt_from_choices`. -/
inductive LookupResult
  | notFound
  | dieCorruptedCache
  | choosePaths (dirs : List String)
deriving DecidableEq, Repr

/-- The method `DevelDirs.get_dir_for_repo` on a cache value. -/
def get_dir_for_repo (cache : List (String × List String)) (repo_name : String) :
    LookupResult :=
  match dictGet? cache repo_name with
  | none => .notFound
  | some dirs => if dirs.length = 0 then .dieCorruptedCache else .choosePaths dirs

/-- The per-directory body of `_update_cache`'s `for d in dirs_list` loop:
skip `d` when it starts with an ignored root; otherwise create a
singleton entry under its basename, append it when the exact path is new
for that name, or do nothing when it is already recorded. -/
def update_cache_step (ignored : List String) (cache : List (String × List String))
    (d : String) : List (String × List String) :=
  if ignored.any (fun g => startsWith d g) then cache
  else
    match dictGet? cache (osBasename d) with
    | none => cache ++ [(osBasename d, [d])]
    | some paths =>
      if d ∈ paths then cache else dictSet cache (osBasename d) (paths ++ [d])

/-- The method `DevelDirs._update_cache` applied to the already-scanned list of
resolved project directories (the `find`/`realpath` scan of the tree is
the externally supplied `dirs_list`). -/
def update_cache (ignored : List String) (dirs_list : List String)
    (cache : List (String × List String)) : List (String × List String) :=
  dirs_list.foldl ( update_cache_step ignored) cache

/-- The staleness test of `_cleanup_cache`: the path is no longer a
directory, or its resolved form starts with a configured ignored root. -/
def is_stale_path (fs : FS) (ignored : List String) (p : String) : Bool :=
  !(fs.isDir p) || ignored.any (fun g => startsWith (fs.realpath p) g)

/-- The `for path in values` loop of `_cleanup_cache` over one cache
entry, modelled exactly as CPython executes it: an internal index `i`
walks the LIVE list, `values.remove(path)` deletes the first occurrence of
the current value in place (so the element sliding into position `i` is
never examined), and the entry is deleted from the copy when a stale path
is met while the list has a single element.  Returns the final list and
whether the entry was deleted.  The explicit fuel makes the recursion
structural; `i` grows and the list never grows, so any fuel of at least
`vs.length + 1` runs the loop to completion. -/
def cleanupLoop (stale : String → Bool) : Nat → Nat → List String → List String × Bool
  | 0, _, vs => (vs, false)
  | fuel + 1, i, vs =>
    if h : i < vs.length then
      let path := vs.get ⟨i, h⟩
      if stale path then
        if 1 < vs.length then cleanupLoop stale fuel (i + 1) (vs.erase path)
        else
          let r := cleanupLoop stale fuel (i + 1) vs
          (r.1, true)
      else cleanupLoop stale fuel (i + 1) vs
    else (vs, false)

/-- The per-entry cleanup loop started at index 0 with sufficient fuel. -/
def cleanupValues (stale : String → Bool) (vs : List String) : List String × Bool :=
  cleanupLoop stale (vs.length + 1) 0 vs

/-- The method `DevelDirs._cleanup_cache`: the returned value is the cache written
back to the persisted file, `none` meaning the file is left untouched
(which happens when the cache is empty — the function exits before
writing — and when `pretend` is set). -/
def cleanup_cache (fs : FS) (ignored : List String)
    (cache : List (String × List String)) (pretend : Bool) :
    Option (List (String × List String)) :=
  if cache.isEmpty then none
  else if pretend then none
  else
    some (cache.filterMap (fun kv =>
      if (cleanupValues ( is_stale_path fs ignored) kv.2).2 then none
      else some (kv.1, (cleanupValues ( is_stale_path fs ignored) kv.2).1)))

/-- Modelled from the spec: the unified Candidate Search of spec section
4.2, which (unlike the code) also collects root candidates in the
strip-suffix (toward-source) direction; used only to compare the code's
source-direction behavior against the spec's words. -/
def candidate_search_spec (fs : FS) (relative_path : String) (root : Directory)
    (suffixes : List String) (towardBuild : Bool) : List String × List String :=
  let parts := buildParts relative_path
  ("" :: suffixes).foldl
    (fun acc suffix =>
      parts.enum.foldl
        (fun acc ip =>
          let name := rstripSlash ip.2
          let modified? : Option (List String) :=
            if towardBuild then some (parts.set ip.1 (name ++ suffix))
            else if endsWith name suffix then
              some (parts.set ip.1 ( strip_end name suffix))
            else none
          match modified? with
          | none => acc
          | some new_parts =>
            let dir := osJoin root.path new_parts
            if fs.isDir dir then (setAdd acc.1 dir, acc.2)
            else
              let proot := osJoin root.path (new_parts.take (ip.1 + 1))
              if fs.isDir proot then (acc.1, setAdd acc.2 proot) else acc)
        acc)
    ([], [])

/-- A filesystem with a symlink `/b1/x -> /b2/x` and existing source
directories `/s1/x` and `/s2/x`, for the two-mapping merge scenario. -/
def fsTwo : FS :=
  { isDir := fun p => p = "/s1/x/" || p = "/s2/x/",
    realpath := fun p => if p = "/b1/x/" then "/b2/x/" else p }

/-- First generic mapping of the merge scenario: `/s1 -> /b1`. -/
def mTwoA : DirMapping :=
  { source := mkDirectory fsTwo "/s1", build_dirs := [mkDirectory fsTwo "/b1"],
    build_suffixes := [], basename := none }

/-- Second generic mapping of the merge scenario: `/s2 -> /b2`. -/
def mTwoB : DirMapping :=
  { source := mkDirectory fsTwo "/s2", build_dirs := [mkDirectory fsTwo "/b2"],
    build_suffixes := [], basename := none }

/-- Two-mapping configuration for the merge scenario. -/
def cfgTwo : Config := { directories := [mTwoA, mTwoB], overrides := [], ignored_dirs := [] }

/-- The working directory `/b1/x` of the merge scenario (its resolved form
is `/b2/x/`). -/
def cwdTwo : Directory := mkDirectory fsTwo "/b1/x"

/-- Generic mapping `/s -> /b` under `fsId`. -/
def mPlain : DirMapping :=
  { source := mkDirectory fsId "/s", build_dirs := [mkDirectory fsId "/b"],
    build_suffixes := [], basename := none }

/-- Override mapping `/os -> /ob` under `fsId`. -/
def oPlain : DirMapping :=
  { source := mkDirectory fsId "/os", build_dirs := [mkDirectory fsId "/ob"],
    build_suffixes := [], basename := none }

/-- Configuration with one override and one generic mapping under `fsId`. -/
def cfgPlain : Config := { directories := [mPlain], overrides := [oPlain], ignored_dirs := [] }

/-- The value `Directory("/ob/x")`: a path inside the OVERRIDE's build root. -/
def dirInOverrideBuild : Directory := mkDirectory fsId "/ob/x"

/-- The override's build root as a `Directory`. -/
def overrideBuildRoot : Directory := mkDirectory fsId "/ob"

/-- A filesystem where only the suffixed build directory exists, for the
suffix-search scenario. -/
def fsSuffix : FS :=
  { isDir := fun p => p = "/b/llvm-debug/tools/clang", realpath := fun p => p }

/-- A filesystem where only `/s/x` exists, for the source-direction
root-candidate scenario. -/
def fsSrcRoot : FS := { isDir := fun p => p = "/s/x", realpath := fun p => p }

/-- Mapping `/s -> /b` with suffix `-d` under `fsSrcRoot`. -/
def mSrcRoot : DirMapping :=
  { source := mkDirectory fsSrcRoot "/s", build_dirs := [mkDirectory fsSrcRoot "/b"],
    build_suffixes := ["-d"], basename := none }

/-- Configuration with the single mapping `mSrcRoot`. -/
def cfgSrcRoot : Config := { directories := [mSrcRoot], overrides := [], ignored_dirs := [] }

/-- The working directory `/b/x/y` of the root-candidate scenario. -/
def cwdSrcRoot : Directory := mkDirectory fsSrcRoot "/b/x/y"

/-- A filesystem where only `/b/x` exists, producing a root-candidate
prompt in the build direction. -/
def fsRootOnly : FS := { isDir := fun p => p = "/b/x", realpath := fun p => p }

/-- Mapping `/s -> /b` (no suffixes) under `fsRootOnly`. -/
def mRootOnly : DirMapping :=
  { source := mkDirectory fsRootOnly "/s", build_dirs := [mkDirectory fsRootOnly "/b"],
    build_suffixes := [], basename := none }

/-- Configuration with the single mapping `mRootOnly`. -/
def cfgRootOnly : Config :=
  { directories := [mRootOnly], overrides := [], ignored_dirs := [] }

/-- The reference path `/s/x/y` of the root-candidate scenario. -/
def pathRootOnly : Directory := mkDirectory fsRootOnly "/s/x/y"

/-- A filesystem where only `/b/x` exists, with mapping reference path
`/s/x`, producing an exact-candidate prompt in the build direction. -/
def pathExact : Directory := mkDirectory fsRootOnly "/s/x"

theorem replaceAllAux_startsWith {pat rep : List Char} (fuel : Nat) (s : List Char)
    (h : pat.isPrefixOf s = true) :
    rep.isPrefixOf (replaceAllAux pat rep (fuel + 1) s) = true := by
  cases s with
  | nil =>
    have hpat : pat = [] := by
      have := List.isPrefixOf_iff_prefix.mp h
      exact List.prefix_nil.mp this
    subst hpat
    simp [replaceAllAux, List.isPrefixOf_iff_prefix]
  | cons c rest =>
    by_cases hemp : pat.isEmpty
    · simp only [replaceAllAux, hemp, if_pos]
      simp [ List.isPrefixOf_iff_prefix]
    · simp only [replaceAllAux]
      rw [if_neg (by simp_all), if_pos h]
      simp [ List.isPrefixOf_iff_prefix]

theorem replaceAll_startsWith {s pat rep : List Char} (h : pat.isPrefixOf s = true) :
    rep.isPrefixOf (replaceAll s pat rep) = true :=
  replaceAllAux_startsWith s.length s h

theorem pyReplace_startsWith {s pat rep : String} (h : startsWith s pat = true) :
    startsWith (pyReplace s pat rep) rep = true := by
  unfold startsWith at *
  unfold pyReplace
  exact replaceAll_startsWith h

/-- The four prefix tests of ` try_replace_prefix` are exactly the four
prefix tests of `Directory.is_subdirectory_of`. -/
theorem try_replace_prefix_eq_none_iff (d p : Directory) (r : String) :
    try_replace_prefix d p r = none ↔ Directory.is_subdirectory_of d p = false := by
  unfold try_replace_prefix Directory.is_subdirectory_of
  cases h1 : startsWith d.path p.path <;>
    cases h2 : startsWith d.path p.real_path <;>
      cases h3 : startsWith d.real_path p.path <;>
        cases h4 : startsWith d.real_path p.real_path <;>
          simp [h1, h2, h3, h4]

theorem try_replace_prefix_some_startsWith (d p : Directory) (r s : String)
    (h : try_replace_prefix d p r = some s) : startsWith s r = true := by
  unfold try_replace_prefix at h
  split at h
  · exact (Option.some.inj h) ▸ pyReplace_startsWith (by assumption)
  · split at h
    · exact (Option.some.inj h) ▸ pyReplace_startsWith (by assumption)
    · split at h
      · exact (Option.some.inj h) ▸ pyReplace_startsWith (by assumption)
      · split at h
        · exact (Option.some.inj h) ▸ pyReplace_startsWith (by assumption)
        · exact absurd h (by simp)

/-- C2: counterexample.  `Directory("/a/b/a/c").try_replace_prefix(Directory("/a"), "R")`
matches on the literal/literal combination and calls Python
`"/a/b/a/c/".replace("/a/", "R")`, which replaces BOTH non-overlapping
occurrences of `"/a/"`, yielding `"RbRc/"` — not `R` concatenated with the
remainder `"b/a/c/"` of the path after the prefix, as the claim states. -/
theorem c2_counterexample :
    Directory.is_subdirectory_of dirRepeated dirSlashA = true ∧
      try_replace_prefix dirRepeated dirSlashA "R" = some "RbRc/" ∧
      ("RbRc/" : String) ≠ "R" ++ "b/a/c/" :=
  ⟨by decide, by decide, by decide⟩

/-- C2 (amended): ` try_replace_prefix` returns no match exactly when none
of the four (literal/resolved) × (literal/resolved) combinations is in a
prefix relation, i.e. exactly when `is_subdirectory_of` is false;
otherwise it returns the matching self-path with every non-overlapping
occurrence of the matched prefix text replaced by the replacement — the
leading occurrence in particular — so the result always starts with the
replacement. -/
theorem c2_try_replace_prefix_behavior (d p : Directory) (r : String) :
    ( try_replace_prefix d p r = none ↔ Directory.is_subdirectory_of d p = false) ∧
      ∀ s, try_replace_prefix d p r = some s → startsWith s r = true :=
  ⟨ try_replace_prefix_eq_none_iff d p r, fun s h => try_replace_prefix_some_startsWith d p r s h⟩

/-- C2 witness: the amended theorem applied at the concrete input above. -/
theorem c2_try_replace_prefix_behavior_witness :
    startsWith "RbRc/" "R" = true :=
  (c2_try_replace_prefix_behavior dirRepeated dirSlashA "R").2 "RbRc/" (by decide)

/-- C8: `get_dir_for_repo` — a missing name is the non-fatal "not found"
result; a present name with an empty path list is the fatal corrupted-cache
exit; a present name with at least one path hands exactly that path list to
`prompt_from_choices`. -/
theorem c8_get_dir_for_repo (cache : List (String × List String)) (name : String) :
    (dictGet? cache name = none → get_dir_for_repo cache name = .notFound) ∧
      (dictGet? cache name = some [] → get_dir_for_repo cache name = .dieCorruptedCache) ∧
      ∀ dirs, dictGet? cache name = some dirs → dirs ≠ [] →
        get_dir_for_repo cache name = .choosePaths dirs := by
  refine ⟨fun h => ?_, fun h => ?_, fun dirs h hne => ?_⟩
  · unfold get_dir_for_repo
    rw [h]
  · unfold get_dir_for_repo
    rw [h]
    rfl
  · unfold get_dir_for_repo
    rw [h]
    simp [List.length_eq_zero, hne]

/-- C8 witness: the three cases at a concrete cache. -/
theorem c8_get_dir_for_repo_witness :
    get_dir_for_repo [("llvm", ["/a/llvm"]), ("bad", [])] "llvm" =
        LookupResult.choosePaths ["/a/llvm"] ∧
      get_dir_for_repo [("llvm", ["/a/llvm"]), ("bad", [])] "bad" =
        LookupResult.dieCorruptedCache ∧
      get_dir_for_repo [("llvm", ["/a/llvm"]), ("bad", [])] "zzz" = LookupResult.notFound :=
  ⟨(c8_get_dir_for_repo _ "llvm").2.2 ["/a/llvm"] (by decide) (by decide),
    (c8_get_dir_for_repo _ "bad").2.1 (by decide),
    (c8_get_dir_for_repo _ "zzz").1 (by decide)⟩

/-- C9: when the current working directory has been deleted (`os.getcwd`
raises, modelled as `none`), `safe_getcwd` yields `"/"`, both resolvers
build their reference `Directory` from `"/"`, and resolution proceeds on
that path. -/
theorem c9_deleted_cwd_fallback (fs : FS) :
    safe_getcwd none = "/" ∧
      buildReferenceDir fs none = mkDirectory fs (fs.realpath "/") ∧
      sourceReferenceDir fs none = mkDirectory fs "/" ∧
      ∀ cfg : Config,
        get_build_dir fs cfg (buildReferenceDir fs none) =
            get_build_dir fs cfg (mkDirectory fs (fs.realpath "/")) ∧
          get_source_dir fs cfg (sourceReferenceDir fs none) =
            get_source_dir fs cfg (mkDirectory fs "/") :=
  ⟨rfl, rfl, rfl, fun _ => ⟨rfl, rfl⟩⟩

theorem mem_setAdd_iff {l : List String} {x y : String} :
    y ∈ setAdd l x ↔ y ∈ l ∨ y = x := by
  unfold setAdd
  split
  · constructor
    · exact Or.inl
    · rintro (hy | rfl)
      · exact hy
      · assumption
  · simp

theorem mem_setUnion_iff {y : String} : ∀ {b a : List String},
    y ∈ setUnion a b ↔ y ∈ a ∨ y ∈ b := by
  intro b
  induction b with
  | nil => intro a; simp [setUnion]
  | cons x rest ih =>
    intro a
    have : setUnion a (x :: rest) = setUnion (setAdd a x) rest := rfl
    rw [this, ih, mem_setAdd_iff]
    simp [or_assoc]

/-- C6: counterexample — `/ob/x` lies inside the override mapping's build
root `/ob`, but the already-in-build-dir check of `get_build_dir` iterates
only the generic `directories`, so the path is NOT returned unchanged: no
mapping matches it and the configured fallback `/b/` is returned
instead. -/
theorem c6_counterexample :
    oPlain ∈ cfgPlain.overrides ∧
      overrideBuildRoot ∈ oPlain.build_dirs ∧
      Directory.is_subdirectory_of dirInOverrideBuild overrideBuildRoot = true ∧
      get_build_dir fsId cfgPlain dirInOverrideBuild = BuildResult.fallback "/b/" ∧
      BuildResult.fallback "/b/" ≠ BuildResult.alreadyInBuildDir dirInOverrideBuild :=
  ⟨by decide, by decide, by decide, by decide, by decide⟩

/-- C6 (amended): a reference path that is a subdirectory of some GENERIC
mapping's build root (override mappings' build roots are not consulted by
this check) is returned unchanged by `get_build_dir`. -/
theorem c6_already_in_build_dir (fs : FS) (cfg : Config) (path : Directory)
    (m : DirMapping) (b : Directory) (hm : m ∈ cfg.directories) (hb : b ∈ m.build_dirs)
    (h : Directory.is_subdirectory_of path b = true) :
    get_build_dir fs cfg path = BuildResult.alreadyInBuildDir path := by
  unfold get_build_dir
  rw [if_pos (List.any_eq_true.mpr ⟨m, hm, List.any_eq_true.mpr ⟨b, hb, h⟩⟩)]

/-- C6 witness: a path inside the generic mapping's build root is returned
unchanged. -/
theorem c6_already_in_build_dir_witness :
    get_build_dir fsId cfgPlain (mkDirectory fsId "/b/q") =
      BuildResult.alreadyInBuildDir (mkDirectory fsId "/b/q") :=
  c6_already_in_build_dir fsId cfgPlain (mkDirectory fsId "/b/q") mPlain
    (mkDirectory fsId "/b") (by decide) (by decide) (by decide)

theorem prompt_from_choices_ne_assertFail :
    ∀ (cs : List String), cs ≠ [] → ∀ line,
      prompt_from_choices cs line ≠ PromptResult.assertFail
  | [], h, _ => absurd rfl h
  | [c], _, line => by simp [prompt_from_choices]
  | c1 :: c2 :: rest, _, line => by
    simp only [prompt_from_choices]
    split
    · simp
    · split <;> simp

theorem get_dir_for_repo_choose_ne_nil {cache : List (String × List String)}
    {name : String} {dirs : List String}
    (h : get_dir_for_repo cache name = LookupResult.choosePaths dirs) : dirs ≠ [] := by
  unfold get_dir_for_repo at h
  split at h
  · exact absurd h (by simp)
  · split at h
    · exact absurd h (by simp)
    · rename_i ds hg hl
      cases h
      intro hnil
      exact hl (by simp [hnil])

theorem try_build_dir_mapping_prompt_ne_nil {fs : FS} {m : DirMapping} {path : Directory}
    {cs : List String}
    (h : try_build_dir_mapping fs m path = some (MappingOutcome.promptCandidates cs) ∨
      try_build_dir_mapping fs m path = some (MappingOutcome.promptRootCandidates cs)) :
    cs ≠ [] := by
  unfold try_build_dir_mapping at h
  rcases h with h | h <;>
    · split at h
      · exact absurd h (by simp)
      · split at h
        · exact absurd h (by simp)
        · split at h
          · simp_all [List.isEmpty_iff]
          · split at h <;> simp_all [List.isEmpty_iff]

theorem buildLoop_prompt_ne_nil {fs : FS} {path : Directory} :
    ∀ {l : List DirMapping} {cs : List String},
      (buildLoop fs path l = some (MappingOutcome.promptCandidates cs) ∨
        buildLoop fs path l = some (MappingOutcome.promptRootCandidates cs)) → cs ≠ [] := by
  intro l
  induction l with
  | nil => intro cs h; rcases h with h | h <;> exact absurd h (by simp [buildLoop])
  | cons m rest ih =>
    intro cs h
    rcases h with h | h <;>
      · rw [buildLoop] at h
        split at h
        · rename_i o hs
          cases h
          unfold buildMappingStep at hs
          split at hs
          · first
            | exact try_build_dir_mapping_prompt_ne_nil (Or.inl hs)
            | exact try_build_dir_mapping_prompt_ne_nil (Or.inr hs)
          · exact absurd hs (by simp)
        · first
          | exact ih (Or.inl h)
          | exact ih (Or.inr h)

theorem get_build_dir_prompt_ne_nil {fs : FS} {cfg : Config} {path : Directory}
    {cs : List String}
    (h : get_build_dir fs cfg path = BuildResult.outcome (MappingOutcome.promptCandidates cs) ∨
      get_build_dir fs cfg path =
        BuildResult.outcome (MappingOutcome.promptRootCandidates cs)) :
    cs ≠ [] := by
  unfold get_build_dir at h
  rcases h with h | h <;>
    · split at h
      · exact absurd h (by simp)
      · split at h
        · rename_i o ho
          cases h
          first
            | exact buildLoop_prompt_ne_nil (Or.inl ho)
            | exact buildLoop_prompt_ne_nil (Or.inr ho)
        · split at h
          · rename_i o ho
            cases h
            first
              | exact buildLoop_prompt_ne_nil (Or.inl ho)
              | exact buildLoop_prompt_ne_nil (Or.inr ho)
          · split at h
            · exact absurd h (by simp)
            · split at h <;> exact absurd h (by simp)

theorem get_source_dir_prompt_ne_nil {fs : FS} {cfg : Config} {cwd : Directory}
    {cs : List String}
    (h : get_source_dir fs cfg cwd = SourceResult.promptCandidates cs) : cs ≠ [] := by
  unfold get_source_dir at h
  split at h
  · exact absurd h (by simp)
  · split at h
    · split at h
      · rename_i hne
        cases h
        simp_all [List.isEmpty_iff]
      · exact absurd h (by simp)
    · split at h <;> exact absurd h (by simp)

/-- C10: every call site of `prompt_from_choices` passes a non-empty
choice list, so the `assert len(choices) > 0` at its top is unreachable:
`get_dir_for_repo` dies on an empty cache entry before prompting, and
build/source resolution prompt only under non-emptiness guards. -/
theorem c10_prompt_never_empty :
    (∀ cache name dirs, get_dir_for_repo cache name = LookupResult.choosePaths dirs →
        dirs ≠ [] ∧ ∀ line, prompt_from_choices dirs line ≠ PromptResult.assertFail) ∧
      (∀ fs cfg path cs,
          (get_build_dir fs cfg path =
              BuildResult.outcome (MappingOutcome.promptCandidates cs) ∨
            get_build_dir fs cfg path =
              BuildResult.outcome (MappingOutcome.promptRootCandidates cs)) →
          cs ≠ [] ∧ ∀ line, prompt_from_choices cs line ≠ PromptResult.assertFail) ∧
      ∀ fs cfg cwd cs, get_source_dir fs cfg cwd = SourceResult.promptCandidates cs →
        cs ≠ [] ∧ ∀ line, prompt_from_choices cs line ≠ PromptResult.assertFail := by
  refine ⟨fun cache name dirs h => ?_, fun fs cfg path cs h => ?_, fun fs cfg cwd cs h => ?_⟩
  · have hne := get_dir_for_repo_choose_ne_nil h
    exact ⟨hne, fun line => prompt_from_choices_ne_assertFail dirs hne line⟩
  · have hne := get_build_dir_prompt_ne_nil h
    exact ⟨hne, fun line => prompt_from_choices_ne_assertFail cs hne line⟩
  · have hne := get_source_dir_prompt_ne_nil h
    exact ⟨hne, fun line => prompt_from_choices_ne_assertFail cs hne line⟩

/-- C10 witness: concrete prompting runs from all three call sites. -/
theorem c10_prompt_never_empty_witness :
    ((["/a/llvm"] : List String) ≠ [] ∧
        prompt_from_choices ["/a/llvm"] "1" ≠ PromptResult.assertFail) ∧
      ((["/b/x"] : List String) ≠ [] ∧
        prompt_from_choices ["/b/x"] "1" ≠ PromptResult.assertFail) ∧
      ((["/s1/x/", "/s2/x/"] : List String) ≠ [] ∧
        prompt_from_choices ["/s1/x/", "/s2/x/"] "2" ≠ PromptResult.assertFail) :=
  ⟨(fun h => ⟨h.1, h.2 "1"⟩)
      (c10_prompt_never_empty.1 [("llvm", ["/a/llvm"])] "llvm" ["/a/llvm"] (by decide)),
    (fun h => ⟨h.1, h.2 "1"⟩)
      (c10_prompt_never_empty.2.1 fsRootOnly cfgRootOnly pathRootOnly ["/b/x"]
        (Or.inr (by decide))),
    (fun h => ⟨h.1, h.2 "2"⟩)
      (c10_prompt_never_empty.2.2 fsTwo cfgTwo cwdTwo ["/s1/x/", "/s2/x/"] (by decide))⟩

/-- C5: `prompt_from_choices` returns a single candidate with no
interaction; with more than one candidate it presents the lexicographically
sorted list, reads one input line, and returns the displayed candidate at
the entered 1-based index when the line parses as an integer in
`[1, count]`; any parse failure or out-of-range value is the fatal
`die("Invalid choice")` exit, with no retry. -/
theorem c5_prompt_from_choices (choices : List String) (line : String)
    (hne : choices ≠ []) :
    (choices.length = 1 →
        prompt_from_choices choices line = PromptResult.immediate (choices.headD "")) ∧
      (1 < choices.length →
        ( sortedChoices choices).Perm choices ∧
          List.Sorted (fun a b : String => a ≤ b) ( sortedChoices choices) ∧
          (∀ n : Int, parseIntLine line = some n → 1 ≤ n → n ≤ (choices.length : Int) →
            prompt_from_choices choices line =
              PromptResult.chosen ( sortedChoices choices)
                (( sortedChoices choices).getD (n.toNat - 1) "")) ∧
          (parseIntLine line = none →
            prompt_from_choices choices line = PromptResult.invalidChoice) ∧
          ∀ n : Int, parseIntLine line = some n →
            (n < 1 ∨ (choices.length : Int) < n) →
            prompt_from_choices choices line = PromptResult.invalidChoice) := by
  constructor
  · intro h1
    obtain ⟨a, rfl⟩ := List.length_eq_one.mp h1
    rfl
  · intro h2
    match choices, hne, h2 with
    | c1 :: c2 :: rest, _, _ =>
      refine ⟨List.mergeSort_perm _ _, ?_, ?_, ?_, ?_⟩
      · have hs := @List.sorted_mergeSort String (fun a b : String => decide (a ≤ b))
          (fun a b c hab hbc => by
            simp only [decide_eq_true_eq] at *
            exact le_trans hab hbc)
          (fun a b => by
            rcases le_total a b with h | h <;> simp [h])
          (c1 :: c2 :: rest)
        exact hs.imp (fun h => of_decide_eq_true h)
      · intro n hp h1n hnl
        simp only [prompt_from_choices, hp]
        rw [if_neg]
        push_neg
        exact ⟨h1n, hnl⟩
      · intro hp
        simp only [prompt_from_choices, hp]
      · intro n hp hrange
        simp only [prompt_from_choices, hp]
        rw [if_pos hrange]

/-- C5 witness: entering `2` among two candidates returns the second
displayed (sorted) candidate. -/
theorem c5_prompt_from_choices_witness :
    prompt_from_choices ["/b/llvm", "/a/llvm"] "2" =
      PromptResult.chosen ( sortedChoices ["/b/llvm", "/a/llvm"])
        (( sortedChoices ["/b/llvm", "/a/llvm"]).getD 1 "") :=
  ((c5_prompt_from_choices ["/b/llvm", "/a/llvm"] "2" (by decide)).2 (by decide)).2.2.1 2
    (by decide) (by decide) (by decide)

theorem buildLoop_append (fs : FS) (path : Directory) (l₁ l₂ : List DirMapping) :
    buildLoop fs path (l₁ ++ l₂) =
      match buildLoop fs path l₁ with
      | some o => some o
      | none => buildLoop fs path l₂ := by
  induction l₁ with
  | nil => simp [buildLoop]
  | cons m rest ih =>
    simp only [List.cons_append, buildLoop]
    cases buildMappingStep fs path m <;> simp [ih]

theorem mem_foldl_setUnion {α : Type} (f : α → List String) :
    ∀ (l : List α) (acc : List String) (y : String),
      y ∈ l.foldl (fun a x => setUnion a (f x)) acc ↔ y ∈ acc ∨ ∃ x ∈ l, y ∈ f x := by
  intro l
  induction l with
  | nil => intro acc y; simp
  | cons x rest ih =>
    intro acc y
    simp only [List.foldl_cons]
    rw [ih, mem_setUnion_iff]
    constructor
    · rintro ((h | h) | ⟨z, hz, hy⟩)
      · exact Or.inl h
      · exact Or.inr ⟨x, List.mem_cons_self x rest, h⟩
      · exact Or.inr ⟨z, List.mem_cons_of_mem x hz, hy⟩
    · rintro (h | ⟨z, hz, hy⟩)
      · exact Or.inl (Or.inl h)
      · rcases List.mem_cons.mp hz with rfl | hz'
        · exact Or.inl (Or.inr hy)
        · exact Or.inr ⟨z, hz', hy⟩

theorem mem_sourceCandidates {fs : FS} {cfg : Config} {cwd : Directory} {m : DirMapping}
    {c : String} (hm : m ∈ cfg.overrides ++ cfg.directories)
    (hc : c ∈ try_as_source_directory fs cwd m) : c ∈ sourceCandidates fs cfg cwd :=
  (mem_foldl_setUnion (fun m => try_as_source_directory fs cwd m)
      (cfg.overrides ++ cfg.directories) [] c).mpr (Or.inr ⟨m, hm, hc⟩)

/-- C1: counterexample.  Under `cfgTwo` the working directory `/b1/x`
(whose resolved form is `/b2/x`) matches BOTH generic mappings, each
contributing one source candidate, and `get_source_dir` prompts over the
union of the two mappings' candidate sets — so the first mapping that
yields a candidate does NOT determine the result, and candidate sets ARE
merged across different mappings in source resolution. -/
theorem c1_counterexample :
    try_as_source_directory fsTwo cwdTwo mTwoA = ["/s1/x/"] ∧
      try_as_source_directory fsTwo cwdTwo mTwoB = ["/s2/x/"] ∧
      mTwoA ∈ cfgTwo.overrides ++ cfgTwo.directories ∧
      mTwoB ∈ cfgTwo.overrides ++ cfgTwo.directories ∧
      get_source_dir fsTwo cfgTwo cwdTwo =
        SourceResult.promptCandidates ["/s1/x/", "/s2/x/"] ∧
      (["/s1/x/", "/s2/x/"] : List String) ≠ ["/s1/x/"] :=
  ⟨by decide, by decide, by decide, by decide, by decide, by decide⟩

/-- C1 (amended): `resolve_build` evaluates overrides and then generic
mappings in configured order and the FIRST mapping whose source contains
the reference path decides the whole operation (its candidates are merged
only across its own build roots; if it yields nothing the operation dies
rather than trying later mappings); `resolve_source`, by contrast, merges
candidates across ALL override and generic mappings and disambiguates once
over the union. -/
theorem c1_resolution_order :
    (∀ (fs : FS) (cfg : Config) (path : Directory),
        cfg.directories.any (fun m => m.build_dirs.any
          (fun b => Directory.is_subdirectory_of path b)) = false →
        get_build_dir fs cfg path =
          match buildLoop fs path (cfg.overrides ++ cfg.directories) with
          | some o => BuildResult.outcome o
          | none =>
            match cfg.directories with
            | [] => BuildResult.pyCrash
            | m :: _ =>
              match m.build_dirs with
              | [] => BuildResult.pyCrash
              | b :: _ => BuildResult.fallback b.path) ∧
      (∀ (fs : FS) (path : Directory) (l₁ : List DirMapping) (m : DirMapping)
          (l₂ : List DirMapping),
          (∀ m' ∈ l₁, buildMappingStep fs path m' = none) →
          buildLoop fs path (l₁ ++ m :: l₂) =
            match buildMappingStep fs path m with
            | some o => some o
            | none => buildLoop fs path l₂) ∧
      ∀ (fs : FS) (cfg : Config) (cwd : Directory) (cs : List String) (m : DirMapping)
          (c : String),
        get_source_dir fs cfg cwd = SourceResult.promptCandidates cs →
        m ∈ cfg.overrides ++ cfg.directories →
        c ∈ try_as_source_directory fs cwd m → c ∈ cs := by
  refine ⟨fun fs cfg path hno => ?_, fun fs path l₁ m l₂ hall => ?_,
    fun fs cfg cwd cs m c hres hm hc => ?_⟩
  · unfold get_build_dir
    rw [if_neg (by simp [hno]), buildLoop_append]
    cases buildLoop fs path cfg.overrides <;> rfl
  · induction l₁ with
    | nil => rfl
    | cons m' rest ih =>
      have h0 : buildMappingStep fs path m' = none := hall m' (by simp)
      simp only [List.cons_append, buildLoop, h0]
      exact ih (fun x hx => hall x (by simp [hx]))
  · unfold get_source_dir at hres
    split at hres
    · exact absurd hres (by simp)
    · split at hres
      · split at hres
        · cases hres
          exact mem_sourceCandidates hm hc
        · exact absurd hres (by simp)
      · split at hres <;> exact absurd hres (by simp)

/-- C1 witness: the three parts of the amended theorem applied at concrete
inputs — the build characterization and first-match rule on `cfgPlain`,
and the merged-candidates membership on the two-mapping scenario. -/
theorem c1_resolution_order_witness :
    get_build_dir fsId cfgPlain dirInOverrideBuild = BuildResult.fallback "/b/" ∧
      buildLoop fsId dirInOverrideBuild (cfgPlain.overrides ++ cfgPlain.directories) = none ∧
      "/s2/x/" ∈ (["/s1/x/", "/s2/x/"] : List String) :=
  ⟨(c1_resolution_order.1 fsId cfgPlain dirInOverrideBuild (by decide)).trans (by decide),
    (c1_resolution_order.2.1 fsId dirInOverrideBuild [oPlain] mPlain []
        (by decide)).trans (by decide),
    c1_resolution_order.2.2 fsTwo cfgTwo cwdTwo ["/s1/x/", "/s2/x/"] mTwoB "/s2/x/"
      (by decide) (by decide) (by decide)⟩

/-- The path list recorded under `k` (empty when `k` is absent). -/
def lookupPaths (c : List (String × List String)) (k : String) : List String :=
  (dictGet? c k).getD []

theorem dictGet?_dictSet_self (c : List (String × List String)) (k : String)
    (v : List String) : dictGet? (dictSet c k v) k = some v := by
  induction c with
  | nil => simp [dictSet, dictGet?]
  | cons kv rest ih =>
    obtain ⟨k', v'⟩ := kv
    by_cases h : k' = k
    · simp [dictSet, dictGet?, h]
    · simp [dictSet, dictGet?, h, ih]

theorem dictGet?_dictSet_ne {key k : String} (h : key ≠ k)
    (c : List (String × List String)) (v : List String) :
    dictGet? (dictSet c k v) key = dictGet? c key := by
  induction c with
  | nil =>
    simp only [dictSet, dictGet?]
    rw [if_neg (Ne.symm h)]
  | cons kv rest ih =>
    obtain ⟨k', v'⟩ := kv
    by_cases hk : k' = k
    · subst hk
      simp only [dictSet, if_pos rfl, dictGet?]
      rw [if_neg (Ne.symm h), if_neg (Ne.symm h)]
    · simp only [dictSet, if_neg hk, dictGet?]
      by_cases hk2 : k' = key
      · rw [if_pos hk2, if_pos hk2]
      · rw [if_neg hk2, if_neg hk2, ih]

theorem dictGet?_append_of_some {c : List (String × List String)} {k : String}
    {v : List String} (h : dictGet? c k = some v) (l : List (String × List String)) :
    dictGet? (c ++ l) k = some v := by
  induction c with
  | nil => simp [dictGet?] at h
  | cons kv rest ih =>
    obtain ⟨k', v'⟩ := kv
    by_cases hk : k' = k
    · simp_all [dictGet?]
    · simp_all [dictGet?]

theorem dictGet?_append_of_none {c : List (String × List String)} {k : String}
    (h : dictGet? c k = none) (l : List (String × List String)) :
    dictGet? (c ++ l) k = dictGet? l k := by
  induction c with
  | nil => simp
  | cons kv rest ih =>
    obtain ⟨k', v'⟩ := kv
    by_cases hk : k' = k
    · simp_all [dictGet?]
    · simp_all [dictGet?]

theorem dictGet?_some_mem {c : List (String × List String)} {k : String} {v : List String}
    (h : dictGet? c k = some v) : (k, v) ∈ c := by
  induction c with
  | nil => simp [dictGet?] at h
  | cons kv rest ih =>
    obtain ⟨k', v'⟩ := kv
    by_cases hk : k' = k
    · subst hk
      simp only [dictGet?, if_pos rfl] at h
      cases h
      exact List.mem_cons_self _ _
    · simp only [dictGet?, if_neg hk] at h
      exact List.mem_cons_of_mem _ (ih h)

theorem mem_dictSet {c : List (String × List String)} {k k' : String} {v v' : List String}
    (h : (k', v') ∈ dictSet c k v) : (k', v') ∈ c ∨ (k' = k ∧ v' = v) := by
  induction c with
  | nil =>
    simp only [dictSet] at h
    rcases List.mem_singleton.mp h with h
    exact Or.inr (by simp_all)
  | cons kv rest ih =>
    obtain ⟨k0, v0⟩ := kv
    unfold dictSet at h
    split at h
    · rcases List.mem_cons.mp h with h | h
      · exact Or.inr (by simp_all)
      · exact Or.inl (List.mem_cons_of_mem _ h)
    · rcases List.mem_cons.mp h with h | h
      · exact Or.inl (by simp [h])
      · rcases ih h with h | h
        · exact Or.inl (List.mem_cons_of_mem _ h)
        · exact Or.inr h

theorem update_step_mem {ignored : List String} {d : String}
    (c : List (String × List String))
    (h : ignored.any (fun g => startsWith d g) = false) :
    d ∈ lookupPaths ( update_cache_step ignored c d) (osBasename d) := by
  unfold update_cache_step lookupPaths
  rw [h]
  simp only [Bool.false_eq_true, if_false]
  split
  · rename_i hg
    rw [dictGet?_append_of_none hg]
    simp [dictGet?]
  · rename_i paths hg
    split
    · rename_i hd
      rw [hg]
      simpa using hd
    · rw [dictGet?_dictSet_self]
      simp

theorem update_step_preserves {ignored : List String} {d k x : String}
    {c : List (String × List String)} (hx : x ∈ lookupPaths c k) :
    x ∈ lookupPaths ( update_cache_step ignored c d) k := by
  unfold update_cache_step
  split
  · exact hx
  · split
    · rename_i hg
      unfold lookupPaths at hx ⊢
      cases hck : dictGet? c k with
      | none => rw [hck] at hx; simp at hx
      | some paths =>
        rw [dictGet?_append_of_some hck]
        rw [hck] at hx
        exact hx
    · rename_i paths hg
      split
      · exact hx
      · rename_i hd
        by_cases hk : osBasename d = k
        · subst hk
          unfold lookupPaths at hx ⊢
          rw [dictGet?_dictSet_self]
          rw [hg] at hx
          simp only [Option.getD_some] at hx ⊢
          exact List.mem_append_left _ hx
        · unfold lookupPaths at hx ⊢
          rw [dictGet?_dictSet_ne (Ne.symm hk)]
          exact hx

theorem update_step_noop {ignored : List String} {d : String}
    {c : List (String × List String)}
    (h : ignored.any (fun g => startsWith d g) = true ∨
      d ∈ lookupPaths c (osBasename d)) :
    update_cache_step ignored c d = c := by
  unfold update_cache_step
  rcases h with h | h
  · rw [h]
    simp
  · split
    · rfl
    · unfold lookupPaths at h
      split
      · rename_i hg
        rw [hg] at h
        simp at h
      · rename_i paths hg
        rw [hg] at h
        simp only [Option.getD_some] at h
        simp [h]

theorem update_fold_preserves {ignored : List String} {k x : String} :
    ∀ {ds : List String} {c : List (String × List String)}, x ∈ lookupPaths c k →
      x ∈ lookupPaths ( update_cache ignored ds c) k := by
  intro ds
  induction ds with
  | nil => intro c hx; exact hx
  | cons e rest ih =>
    intro c hx
    exact ih ( update_step_preserves hx)

theorem update_fold_mem {ignored : List String} :
    ∀ {ds : List String} {c : List (String × List String)} {d : String}, d ∈ ds →
      ignored.any (fun g => startsWith d g) = false →
      d ∈ lookupPaths ( update_cache ignored ds c) (osBasename d) := by
  intro ds
  induction ds with
  | nil => intro c d h; simp at h
  | cons e rest ih =>
    intro c d hd hig
    rcases List.mem_cons.mp hd with rfl | hd'
    · show d ∈ lookupPaths
        ( update_cache ignored rest ( update_cache_step ignored c d)) (osBasename d)
      exact update_fold_preserves ( update_step_mem c hig)
    · exact ih hd' hig

theorem update_step_nodup {ignored : List String} {d : String}
    {c : List (String × List String)} (h : ∀ k v, (k, v) ∈ c → v.Nodup) :
    ∀ k v, (k, v) ∈ update_cache_step ignored c d → v.Nodup := by
  intro k v hv
  unfold update_cache_step at hv
  split at hv
  · exact h k v hv
  · split at hv
    · rcases List.mem_append.mp hv with hv | hv
      · exact h k v hv
      · have hv2 := List.mem_singleton.mp hv
        simp only [Prod.mk.injEq] at hv2
        obtain ⟨rfl, rfl⟩ := hv2
        exact List.nodup_singleton d
    · rename_i paths hg
      split at hv
      · exact h k v hv
      · rename_i hdp
        rcases mem_dictSet hv with hv | ⟨_, rfl⟩
        · exact h k v hv
        · have hp : paths.Nodup := h _ _ (dictGet?_some_mem hg)
          rw [List.nodup_append]
          refine ⟨hp, List.nodup_singleton d, ?_⟩
          intro a ha hb
          rcases List.mem_singleton.mp hb with rfl
          exact hdp ha

theorem update_fold_nodup {ignored : List String} :
    ∀ {ds : List String} {c : List (String × List String)},
      (∀ k v, (k, v) ∈ c → v.Nodup) →
      ∀ k v, (k, v) ∈ update_cache ignored ds c → v.Nodup := by
  intro ds
  induction ds with
  | nil => intro c h; exact h
  | cons e rest ih =>
    intro c h
    exact ih ( update_step_nodup h)

/-- C7: the update scan is idempotent — running it twice over the same
(unchanged) scan result yields the same cache as running it once, because
a directory whose exact path is already recorded under its basename is a
no-op, a new basename creates a singleton entry, and an unrecorded path
under an existing basename is appended — and no name accumulates duplicate
path entries. -/
theorem c7_update_cache_idempotent (ignored ds : List String)
    (cache : List (String × List String)) :
    update_cache ignored ds ( update_cache ignored ds cache) =
        update_cache ignored ds cache ∧
      ((∀ k v, (k, v) ∈ cache → v.Nodup) →
        ∀ k v, (k, v) ∈ update_cache ignored ds cache → v.Nodup) := by
  constructor
  · have key : ∀ d ∈ ds,
        update_cache_step ignored ( update_cache ignored ds cache) d =
          update_cache ignored ds cache := by
      intro d hd
      by_cases hig : ignored.any (fun g => startsWith d g) = true
      · exact update_step_noop (Or.inl hig)
      · exact update_step_noop (Or.inr ( update_fold_mem hd (by simpa using hig)))
    have fix : ∀ (l : List String),
        (∀ d ∈ l, update_cache_step ignored ( update_cache ignored ds cache) d =
          update_cache ignored ds cache) →
        update_cache ignored l ( update_cache ignored ds cache) =
          update_cache ignored ds cache := by
      intro l
      induction l with
      | nil => intro; rfl
      | cons e rest ih =>
        intro hall
        show update_cache ignored rest
            ( update_cache_step ignored ( update_cache ignored ds cache) e) =
          update_cache ignored ds cache
        rw [hall e (List.mem_cons_self _ _)]
        exact ih (fun d hd => hall d (List.mem_cons_of_mem _ hd))
    exact fix ds key
  · exact fun h => update_fold_nodup h

/-- C7 witness: scanning the same directory twice records it once, and the
resulting entry is duplicate-free. -/
theorem c7_update_cache_idempotent_witness :
    (["/src/llvm"] : List String).Nodup :=
  (c7_update_cache_idempotent [] ["/src/llvm", "/src/llvm"] []).2
    (fun k v h => absurd h (List.not_mem_nil _)) "llvm" ["/src/llvm"] (by decide)

theorem mem_fold_add_fst {fs : FS} {bp : String} {parts : List String} {suffix : String} :
    ∀ (l : List (Nat × String)) (acc : List String × List String) (y : String),
      y ∈ (l.foldl (addSuffixCandidate fs bp parts suffix) acc).1 ↔
        y ∈ acc.1 ∨ ∃ ip ∈ l,
          fs.isDir (osJoin bp (modifiedSegs parts suffix ip)) = true ∧
          y = osJoin bp (modifiedSegs parts suffix ip) := by
  intro l
  induction l with
  | nil => intro acc y; simp
  | cons ip rest ih =>
    intro acc y
    simp only [List.foldl_cons]
    rw [ih]
    unfold addSuffixCandidate
    split
    · rename_i hdir
      constructor
      · rintro (hy | ⟨z, hz, hc, hy⟩)
        · rcases mem_setAdd_iff.mp hy with hy' | rfl
          · exact Or.inl hy'
          · exact Or.inr ⟨ip, List.mem_cons_self _ _, hdir, rfl⟩
        · exact Or.inr ⟨z, List.mem_cons_of_mem _ hz, hc, hy⟩
      · rintro (hy | ⟨z, hz, hc, hy⟩)
        · exact Or.inl (mem_setAdd_iff.mpr (Or.inl hy))
        · rcases List.mem_cons.mp hz with rfl | hz'
          · exact Or.inl (mem_setAdd_iff.mpr (Or.inr hy))
          · exact Or.inr ⟨z, hz', hc, hy⟩
    · rename_i hdir
      have hcontr : ∀ hc : fs.isDir (osJoin bp (modifiedSegs parts suffix ip)) = true, False :=
        fun hc => by rw [hc] at hdir; exact hdir rfl
      split
      · constructor
        · rintro (hy | ⟨z, hz, hc, hy⟩)
          · exact Or.inl hy
          · exact Or.inr ⟨z, List.mem_cons_of_mem _ hz, hc, hy⟩
        · rintro (hy | ⟨z, hz, hc, hy⟩)
          · exact Or.inl hy
          · rcases List.mem_cons.mp hz with rfl | hz'
            · exact absurd hc (fun hc => hcontr hc)
            · exact Or.inr ⟨z, hz', hc, hy⟩
      · constructor
        · rintro (hy | ⟨z, hz, hc, hy⟩)
          · exact Or.inl hy
          · exact Or.inr ⟨z, List.mem_cons_of_mem _ hz, hc, hy⟩
        · rintro (hy | ⟨z, hz, hc, hy⟩)
          · exact Or.inl hy
          · rcases List.mem_cons.mp hz with rfl | hz'
            · exact absurd hc (fun hc => hcontr hc)
            · exact Or.inr ⟨z, hz', hc, hy⟩

theorem mem_fold_add_snd {fs : FS} {bp : String} {parts : List String} {suffix : String} :
    ∀ (l : List (Nat × String)) (acc : List String × List String) (y : String),
      y ∈ (l.foldl (addSuffixCandidate fs bp parts suffix) acc).2 ↔
        y ∈ acc.2 ∨ ∃ ip ∈ l,
          fs.isDir (osJoin bp (modifiedSegs parts suffix ip)) = false ∧
          fs.isDir (osJoin bp ((modifiedSegs parts suffix ip).take (ip.1 + 1))) = true ∧
          y = osJoin bp ((modifiedSegs parts suffix ip).take (ip.1 + 1)) := by
  intro l
  induction l with
  | nil => intro acc y; simp
  | cons ip rest ih =>
    intro acc y
    simp only [List.foldl_cons]
    rw [ih]
    unfold addSuffixCandidate
    split
    · rename_i hdir
      constructor
      · rintro (hy | ⟨z, hz, hc, hy⟩)
        · exact Or.inl hy
        · exact Or.inr ⟨z, List.mem_cons_of_mem _ hz, hc, hy⟩
      · rintro (hy | ⟨z, hz, hc, hr, hy⟩)
        · exact Or.inl hy
        · rcases List.mem_cons.mp hz with rfl | hz'
          · rw [hdir] at hc
            exact absurd hc (by simp)
          · exact Or.inr ⟨z, hz', hc, hr, hy⟩
    · rename_i hdir
      have hdir' : fs.isDir (osJoin bp (modifiedSegs parts suffix ip)) = false :=
        Bool.not_eq_true _ ▸ eq_false_of_ne_true hdir
      split
      · rename_i hroot
        constructor
        · rintro (hy | ⟨z, hz, hc, hy⟩)
          · rcases mem_setAdd_iff.mp hy with hy' | rfl
            · exact Or.inl hy'
            · exact Or.inr ⟨ip, List.mem_cons_self _ _, hdir', hroot, rfl⟩
          · exact Or.inr ⟨z, List.mem_cons_of_mem _ hz, hc, hy⟩
        · rintro (hy | ⟨z, hz, hc, hr, hy⟩)
          · exact Or.inl (mem_setAdd_iff.mpr (Or.inl hy))
          · rcases List.mem_cons.mp hz with rfl | hz'
            · exact Or.inl (mem_setAdd_iff.mpr (Or.inr hy))
            · exact Or.inr ⟨z, hz', hc, hr, hy⟩
      · rename_i hroot
        constructor
        · rintro (hy | ⟨z, hz, hc, hy⟩)
          · exact Or.inl hy
          · exact Or.inr ⟨z, List.mem_cons_of_mem _ hz, hc, hy⟩
        · rintro (hy | ⟨z, hz, hc, hr, hy⟩)
          · exact Or.inl hy
          · rcases List.mem_cons.mp hz with rfl | hz'
            · rw [hr] at hroot
              exact absurd rfl hroot
            · exact Or.inr ⟨z, hz', hc, hr, hy⟩

theorem mem_suffix_fold_fst {fs : FS} {bp : String} {parts : List String} :
    ∀ (sl : List String) (acc : List String × List String) (y : String),
      y ∈ (sl.foldl
          (fun acc s => parts.enum.foldl (addSuffixCandidate fs bp parts s) acc) acc).1 ↔
        y ∈ acc.1 ∨ ∃ s ∈ sl, ∃ ip ∈ parts.enum,
          fs.isDir (osJoin bp (modifiedSegs parts s ip)) = true ∧
          y = osJoin bp (modifiedSegs parts s ip) := by
  intro sl
  induction sl with
  | nil => intro acc y; simp
  | cons s rest ih =>
    intro acc y
    simp only [List.foldl_cons]
    rw [ih, mem_fold_add_fst]
    constructor
    · rintro ((hy | hy) | ⟨s', hs', hy⟩)
      · exact Or.inl hy
      · exact Or.inr ⟨s, List.mem_cons_self _ _, hy⟩
      · exact Or.inr ⟨s', List.mem_cons_of_mem _ hs', hy⟩
    · rintro (hy | ⟨s', hs', hy⟩)
      · exact Or.inl (Or.inl hy)
      · rcases List.mem_cons.mp hs' with rfl | hs''
        · exact Or.inl (Or.inr hy)
        · exact Or.inr ⟨s', hs'', hy⟩

theorem mem_suffix_fold_snd {fs : FS} {bp : String} {parts : List String} :
    ∀ (sl : List String) (acc : List String × List String) (y : String),
      y ∈ (sl.foldl
          (fun acc s => parts.enum.foldl (addSuffixCandidate fs bp parts s) acc) acc).2 ↔
        y ∈ acc.2 ∨ ∃ s ∈ sl, ∃ ip ∈ parts.enum,
          fs.isDir (osJoin bp (modifiedSegs parts s ip)) = false ∧
          fs.isDir (osJoin bp ((modifiedSegs parts s ip).take (ip.1 + 1))) = true ∧
          y = osJoin bp ((modifiedSegs parts s ip).take (ip.1 + 1)) := by
  intro sl
  induction sl with
  | nil => intro acc y; simp
  | cons s rest ih =>
    intro acc y
    simp only [List.foldl_cons]
    rw [ih, mem_fold_add_snd]
    constructor
    · rintro ((hy | hy) | ⟨s', hs', hy⟩)
      · exact Or.inl hy
      · exact Or.inr ⟨s, List.mem_cons_self _ _, hy⟩
      · exact Or.inr ⟨s', List.mem_cons_of_mem _ hs', hy⟩
    · rintro (hy | ⟨s', hs', hy⟩)
      · exact Or.inl (Or.inl hy)
      · rcases List.mem_cons.mp hs' with rfl | hs''
        · exact Or.inl (Or.inr hy)
        · exact Or.inr ⟨s', hs'', hy⟩

theorem foldl_mem_of_invariant {α : Type} (P : String → Prop)
    (g : List String → α → List String)
    (hg : ∀ acc x y, y ∈ g acc x → y ∈ acc ∨ P y) :
    ∀ (l : List α) (acc : List String) (y : String), y ∈ l.foldl g acc → y ∈ acc ∨ P y := by
  intro l
  induction l with
  | nil => intro acc y h; exact Or.inl h
  | cons x rest ih =>
    intro acc y h
    rcases ih _ y h with h' | h'
    · exact hg acc x y h'
    · exact Or.inr h'

theorem mem_stripSuffixCandidates {fs : FS} {srcpath : String} {suffixes parts : List String} :
    ∀ (cands : List String) (y : String),
      y ∈ stripSuffixCandidates fs srcpath suffixes parts cands →
        y ∈ cands ∨ fs.isDir y = true := by
  intro cands y h
  unfold stripSuffixCandidates at h
  refine foldl_mem_of_invariant (fun z => fs.isDir z = true) _ ?_ _ _ _ h
  intro acc ip z hz
  refine foldl_mem_of_invariant (fun z => fs.isDir z = true) _ ?_ _ _ _ hz
  intro acc' s z' hz'
  split at hz'
  · split at hz'
    · rename_i hdir
      rcases mem_setAdd_iff.mp hz' with h' | rfl
      · exact Or.inl h'
      · exact Or.inr hdir
    · exact Or.inl hz'
  · exact Or.inl hz'

theorem try_as_source_all_isDir {fs : FS} {path : Directory} {m : DirMapping} :
    ∀ y ∈ try_as_source_directory fs path m, fs.isDir y = true := by
  intro y hy
  unfold try_as_source_directory at hy
  have hstep : ∀ (cands : List String) (bd : Directory) (z : String),
      z ∈ (fun cands bd =>
        match try_replace_prefix path bd "" with
        | none => cands
        | some rel =>
          if m.build_suffixes.isEmpty then
            (if fs.isDir (m.source.path ++ rel) then setAdd cands (m.source.path ++ rel)
             else cands)
          else
            stripSuffixCandidates fs m.source.path m.build_suffixes (splitSegs rel)
              (if fs.isDir (m.source.path ++ rel) then setAdd cands (m.source.path ++ rel)
               else cands)) cands bd →
      z ∈ cands ∨ fs.isDir z = true := by
    intro cands bd z hz
    simp only at hz
    split at hz
    · exact Or.inl hz
    · split at hz
      · split at hz
        · rename_i hdir
          rcases mem_setAdd_iff.mp hz with h' | rfl
          · exact Or.inl h'
          · exact Or.inr hdir
        · exact Or.inl hz
      · rcases mem_stripSuffixCandidates _ z hz with h' | h'
        · split at h'
          · rename_i hdir
            rcases mem_setAdd_iff.mp h' with h'' | rfl
            · exact Or.inl h''
            · exact Or.inr hdir
          · exact Or.inl h'
        · exact Or.inr h'
  rcases foldl_mem_of_invariant (fun z => fs.isDir z = true) _ hstep m.build_dirs [] y hy
    with h | h
  · exact absurd h (List.not_mem_nil _)
  · exact h

/-- C4: counterexample.  In the strip-suffix (toward-source) direction the
code collects NO root candidates: under mapping `/s -> /b` with suffix
`-d`, working directory `/b/x/y` and only `/s/x` existing, the spec's
Candidate Search would return the root candidate `/s/x` (with an empty
exact set, so resolution should consider it), but
`_try_as_source_directory` returns the empty set and `get_source_dir`
dies. -/
theorem c4_counterexample :
    candidate_search_spec fsSrcRoot "x/y/" (mkDirectory fsSrcRoot "/s") ["-d"] false =
        ([], ["/s/x"]) ∧
      fsSrcRoot.isDir "/s/x" = true ∧
      try_as_source_directory fsSrcRoot cwdSrcRoot mSrcRoot = [] ∧
      get_source_dir fsSrcRoot cfgSrcRoot cwdSrcRoot = SourceResult.dieNotFound :=
  ⟨by decide, by decide, by decide, by decide⟩

/-- C4 (amended): in the BUILD direction the candidate search behaves as
claimed: for every suffix (configured ones plus the implicit empty one)
and segment index, exactly segment `i` carries the appended suffix, an
existing modified path joins the exact-candidate set, an existing prefix
through the modified segment joins the root-candidate set otherwise, root
candidates are considered only when a mapping's exact set is empty, and an
empty relative path becomes the single synthetic segment `"/"` (inside
`buildParts`).  In the SOURCE (strip-suffix) direction, however, only
exact candidates are collected: every candidate is an existing directory
and there is no root-candidate fallback. -/
theorem c4_candidate_search (fs : FS) :
    (∀ (rel : String) (bd : Directory) (sfx : List String) (y : String),
        (y ∈ ( get_build_dir_candidates fs rel bd sfx).1 ↔
          ∃ s ∈ sfx ++ [""], ∃ ip ∈ (buildParts rel).enum,
            fs.isDir (osJoin bd.path (modifiedSegs (buildParts rel) s ip)) = true ∧
            y = osJoin bd.path (modifiedSegs (buildParts rel) s ip)) ∧
        (y ∈ ( get_build_dir_candidates fs rel bd sfx).2 ↔
          ∃ s ∈ sfx ++ [""], ∃ ip ∈ (buildParts rel).enum,
            fs.isDir (osJoin bd.path (modifiedSegs (buildParts rel) s ip)) = false ∧
            fs.isDir
              (osJoin bd.path ((modifiedSegs (buildParts rel) s ip).take (ip.1 + 1))) = true ∧
            y = osJoin bd.path ((modifiedSegs (buildParts rel) s ip).take (ip.1 + 1)))) ∧
      (∀ (m : DirMapping) (path : Directory) (r : List String),
          try_build_dir_mapping fs m path = some (MappingOutcome.promptRootCandidates r) →
          ∃ rel, mappingRelativePath m path = some rel ∧
            (mappingCandidates fs m rel).1 = []) ∧
      ∀ (path : Directory) (m : DirMapping) (y : String),
        y ∈ try_as_source_directory fs path m → fs.isDir y = true := by
  refine ⟨fun rel bd sfx y => ⟨?_, ?_⟩, fun m path r h => ?_, fun path m y hy => ?_⟩
  · exact (mem_suffix_fold_fst (sfx ++ [""]) ([], []) y).trans (by simp)
  · exact (mem_suffix_fold_snd (sfx ++ [""]) ([], []) y).trans (by simp)
  · unfold try_build_dir_mapping at h
    split at h
    · exact absurd h (by simp)
    · rename_i rel hrel
      split at h
      · exact absurd h (by simp)
      · split at h
        · exact absurd h (by simp)
        · rename_i hfull
          split at h
          · exact ⟨rel, hrel, by simpa [List.isEmpty_iff] using hfull⟩
          · exact absurd h (by simp)
  · exact try_as_source_all_isDir y hy

/-- C4 witness: the exact-candidate characterization at the suffix
scenario, the root-only-when-exact-empty rule at the root-candidate
scenario, and an existing source-side candidate. -/
theorem c4_candidate_search_witness :
    (∃ s ∈ (["-debug"] ++ [""] : List String), ∃ ip ∈ (buildParts "llvm/tools/clang/").enum,
        fsSuffix.isDir
            (osJoin (mkDirectory fsSuffix "/b").path
              (modifiedSegs (buildParts "llvm/tools/clang/") s ip)) = true ∧
          "/b/llvm-debug/tools/clang" =
            osJoin (mkDirectory fsSuffix "/b").path
              (modifiedSegs (buildParts "llvm/tools/clang/") s ip)) ∧
      (∃ rel, mappingRelativePath mRootOnly pathRootOnly = some rel ∧
        (mappingCandidates fsRootOnly mRootOnly rel).1 = []) ∧
      fsTwo.isDir "/s1/x/" = true :=
  ⟨((c4_candidate_search fsSuffix).1 "llvm/tools/clang/" (mkDirectory fsSuffix "/b")
        ["-debug"] "/b/llvm-debug/tools/clang").1.mp (by decide),
    (c4_candidate_search fsRootOnly).2.1 mRootOnly pathRootOnly ["/b/x"] (by decide),
    (c4_candidate_search fsTwo).2.2 cwdTwo mTwoA "/s1/x/" (by decide)⟩

/-- C3 (code bug): `_cleanup_cache` removes entries from the list it is
iterating over, so the element immediately after a removed one is skipped:
with cache `{"p": ["/g1", "/g2"]}` and both paths stale (nothing exists
under `fsId`), the run removes `/g1` but leaves the equally stale `/g2`
and persists `{"p": ["/g2"]}` instead of deleting the entry; with
`pretend=true` the persisted file is untouched, as claimed. -/
theorem c3_cleanup_skips_adjacent_stale :
    is_stale_path fsId [] "/g1" = true ∧
      is_stale_path fsId [] "/g2" = true ∧
      cleanup_cache fsId [] [("p", ["/g1", "/g2"])] false = some [("p", ["/g2"])] ∧
      cleanup_cache fsId [] [("p", ["/g1", "/g2"])] true = none :=
  ⟨by decide, by decide, by decide, by decide⟩

end DDS
